import Mathlib

/-
Verification of the unwind DNS frontend (sbin/unwind/frontend.c) and of the
PKCS12_newpass password-change routine (p12_npas.c), by a shallow embedding
of the relevant functions in Lean.  Machine integers are modelled as Nat
with explicit bounds where they matter; fallible calls are modelled by
explicit success parameters or Option results.  Definitions follow the C
source; the few places where a libunbound library routine (not part of this
repository sample) decides behaviour are modelled from the specification and
marked as such in their doc comments.
-/

/- DNS rcode values (RFC 1035), as used through the LDNS_RCODE_* macros. -/

def LDNS_RCODE_NOERROR : Nat := 0

def LDNS_RCODE_FORMERR : Nat := 1

def LDNS_RCODE_SERVFAIL : Nat := 2

def LDNS_RCODE_NOTIMPL : Nat := 4

def LDNS_RCODE_REFUSED : Nat := 5

def LDNS_HEADER_SIZE : Nat := 12

def LDNS_PACKET_QUERY : Nat := 0

/- DNS RR type and class numbers used by handle_query. -/

def LDNS_RR_TYPE_OPT : Nat := 41

def LDNS_RR_TYPE_TKEY : Nat := 249

def LDNS_RR_TYPE_TSIG : Nat := 250

def LDNS_RR_TYPE_IXFR : Nat := 251

def LDNS_RR_TYPE_AXFR : Nat := 252

def LDNS_RR_TYPE_MAILB : Nat := 253

def LDNS_RR_TYPE_MAILA : Nat := 254

def LDNS_RR_CLASS_CH : Nat := 3

/-- Wire-header view of a DNS packet as read by the LDNS_*_WIRE macros:
the buffer limit (packet length) plus the header fields check_query
inspects. -/
structure DnsHeader where
  limit : Nat
  qr : Bool
  tc : Bool
  rd : Bool
  opcode : Nat
  qdcount : Nat
  ancount : Nat
  nscount : Nat
  arcount : Nat
deriving DecidableEq

/-- Embedding of check_query from frontend.c.  Returns the rcode decision
(negative one meaning drop) together with the packet, since the TC branch
mutates the buffer by clearing the TC bit. -/
def check_query (pkt : DnsHeader) : Int × DnsHeader :=
  if pkt.limit < LDNS_HEADER_SIZE then (-1, pkt)
  else if pkt.qr then (-1, pkt)
  else if pkt.tc then ((LDNS_RCODE_FORMERR : Nat), { pkt with tc := false })
  else if !pkt.rd then ((LDNS_RCODE_REFUSED : Nat), pkt)
  else if pkt.opcode ≠ LDNS_PACKET_QUERY then ((LDNS_RCODE_NOTIMPL : Nat), pkt)
  else if pkt.qdcount ≠ 1 ∧ pkt.ancount ≠ 0 ∧ pkt.nscount ≠ 0 ∧ pkt.arcount > 1 then
    ((LDNS_RCODE_FORMERR : Nat), pkt)
  else (0, pkt)

/-- Case-insensitive string equality: the strcasecmp comparison used by
bl_cmp and by the chaos-class name checks, restricted to equality. -/
def strcasecmp_eq (a b : String) : Bool :=
  a.data.map Char.toLower == b.data.map Char.toLower

/-- Lookup in the blocklist tree: RB_FIND with the bl_cmp (strcasecmp)
comparator succeeds exactly when some stored domain compares equal to the
rendered query name ignoring ASCII case. -/
def bl_contains (bl : List String) (d : String) : Bool :=
  bl.any (fun e => strcasecmp_eq e d)

/-- Possible outcomes of the handle_query screening pipeline. -/
inductive QueryOutcome where
  | drop : QueryOutcome
  | answer : Nat → QueryOutcome
  | chaos : QueryOutcome
  | forward : QueryOutcome
deriving DecidableEq

/-- Results of the parsing stages that handle_query consults, gathered into
one record: the check_query rcode, the parse_extract_edns rcode, the
dname_valid verdict, the rendered dname, qtype and qclass from qinfo, and
the success of the strlcpy and imsg-compose calls. -/
structure ParsedQuery where
  cq : Int
  edns_rcode : Nat
  dname_ok : Bool
  dname : String
  qtype : Nat
  qclass : Nat
  qname_fits : Bool
  compose_ok : Bool

/-- Embedding of the handle_query decision pipeline from frontend.c, after
query_info_parse and parse_packet succeeded, in the exact source order:
check_query verdict, EDNS extraction, dname validity, blocklist lookup,
AXFR and IXFR refusal, meta qtypes, CH class handling, qname length bound,
imsg composition. -/
def handle_query_screen (bl : List String) (q : ParsedQuery) : QueryOutcome :=
  if q.cq = -1 then .drop
  else if q.cq ≠ 0 then .answer q.cq.toNat
  else if q.edns_rcode ≠ LDNS_RCODE_NOERROR then .answer q.edns_rcode
  else if !q.dname_ok then .answer LDNS_RCODE_FORMERR
  else if bl_contains bl q.dname then .answer LDNS_RCODE_REFUSED
  else if q.qtype = LDNS_RR_TYPE_AXFR ∨ q.qtype = LDNS_RR_TYPE_IXFR then
    .answer LDNS_RCODE_REFUSED
  else if q.qtype = LDNS_RR_TYPE_OPT ∨ q.qtype = LDNS_RR_TYPE_TSIG ∨
      q.qtype = LDNS_RR_TYPE_TKEY ∨ q.qtype = LDNS_RR_TYPE_MAILA ∨
      q.qtype = LDNS_RR_TYPE_MAILB ∨ (128 ≤ q.qtype ∧ q.qtype ≤ 248) then
    .answer LDNS_RCODE_FORMERR
  else if q.qclass = LDNS_RR_CLASS_CH then
    (if strcasecmp_eq q.dname "version.server." ∨
        strcasecmp_eq q.dname "version.bind." then .chaos
     else .answer LDNS_RCODE_REFUSED)
  else if !q.qname_fits then .answer LDNS_RCODE_FORMERR
  else if !q.compose_ok then .answer LDNS_RCODE_SERVFAIL
  else .forward

/- Blocklist file parsing (parse_blocklist). -/

/-- Split off the first line of a character stream, keeping the newline at
the end of the returned line, as getline does. -/
def breakNl : List Char → List Char × List Char
  | [] => ([], [])
  | c :: cs =>
    if c = '\n' then ([c], cs)
    else
      let p := breakNl cs
      (c :: p.1, p.2)

/-- Fuelled splitting of a file into getline-style lines. -/
def getlinesAux : Nat → List Char → List (List Char)
  | 0, _ => []
  | _, [] => []
  | fuel + 1, c :: cs =>
    let p := breakNl (c :: cs)
    p.1 :: getlinesAux fuel p.2

/-- Split a file into the sequence of lines getline returns: each line keeps
its trailing newline, and a final fragment without a newline is returned as
well when nonempty. -/
def getlines (cs : List Char) : List (List Char) :=
  getlinesAux cs.length cs

/-- Per-line transformation of parse_blocklist: when the line ends in a
newline, the newline is overwritten with a dot if the character before it
is not already a dot (and the line has at least two characters), otherwise
the newline is truncated away; a line without a newline is kept as is. -/
def bl_line (l : List Char) : List Char :=
  if l.getLast? = some '\n' then
    (if 2 ≤ l.length ∧ l.dropLast.getLast? ≠ some '.' then l.dropLast ++ ['.']
     else l.dropLast)
  else l

/-- Membership test with the case-insensitive bl_cmp comparator, used to
model RB_INSERT rejecting duplicates. -/
def ci_mem (e : List Char) (acc : List (List Char)) : Bool :=
  acc.any (fun d => d.map Char.toLower == e.map Char.toLower)

/-- RB_INSERT into the blocklist: a duplicate (case-insensitively equal)
domain is logged and dropped, otherwise the entry is stored. -/
def insert_bl (acc : List (List Char)) (e : List Char) : List (List Char) :=
  if ci_mem e acc then acc else acc ++ [e]

/-- Embedding of parse_blocklist from frontend.c: after free_bl the file is
read line by line, each line is transformed by the in-place newline and dot
rewriting, and inserted into the tree with duplicates dropped. -/
def parse_blocklist (file : List Char) : List (List Char) :=
  (getlines file).foldl (fun acc line => insert_bl acc (bl_line line)) []

/- Answer construction (noerror_answer, error_answer, chaos_answer) and the
header id returned to the client. -/

/-- The client query wire bytes as far as answer construction reads them:
the 16-bit header id and the flags word. -/
structure QueryWire where
  id : Nat
  flags : Nat
deriving DecidableEq

/-- The qmsg field of a pending query: the parsed header produced by
parse_packet (msgparse). -/
structure Qmsg where
  id : Nat
  flags : Nat
deriving DecidableEq

/-- The slice of a pending query that answer construction depends on. -/
structure PendingAnswerCtx where
  qbuf : QueryWire
  qmsg : Qmsg
  tcp : Bool
  edns_present : Bool
deriving DecidableEq

/-- Modelled from the spec: parse_packet (libunbound msgparse, of which only
the caller is under src/) fills qmsg from the wire header of qbuf, so
qmsg.id is the header id of the client query and qmsg.flags its flags
word. -/
def parse_packet (q : QueryWire) : Qmsg :=
  { id := q.id, flags := q.flags }

/-- A wire answer as far as the claims inspect it: its header id and its
rcode. -/
structure AnswerWire where
  id : Nat
  rcode : Nat
deriving DecidableEq

/-- Modelled from the spec: error_encode (libunbound msgencode, of which
only the caller is under src/) builds an error answer whose header id is
exactly the id argument supplied by the caller. -/
def error_encode (id _flags rcode : Nat) : AnswerWire :=
  { id := id, rcode := rcode }

/-- Embedding of error_answer from frontend.c: error_encode on abuf with
the rcode, qinfo, and the id and flags from the parsed query header. -/
def error_answer (pq : PendingAnswerCtx) (rcode : Nat) : AnswerWire :=
  error_encode pq.qmsg.id pq.qmsg.flags rcode

/-- Embedding of noerror_answer from frontend.c.  Parsing the accumulated
reply (query_info_parse and reply_info_parse, modelled from the spec by the
success flag) either lets reply_info_encode rebuild the answer with the
client header id pq.qmsg.id, or falls through to error_answer SERVFAIL. -/
def noerror_answer (pq : PendingAnswerCtx) (reply_parse_ok : Bool) : AnswerWire :=
  if reply_parse_ok then { id := pq.qmsg.id, rcode := LDNS_RCODE_NOERROR }
  else error_answer pq LDNS_RCODE_SERVFAIL

/-- Embedding of chaos_answer from frontend.c: the query bytes are copied
into abuf and the two id octets are skipped, never rewritten, so the answer
keeps the wire id of qbuf; flags are cleared and rebuilt and the rcode is
NOERROR. -/
def chaos_answer (pq : PendingAnswerCtx) : AnswerWire :=
  { id := pq.qbuf.id, rcode := LDNS_RCODE_NOERROR }

/- The IMSG_ANSWER chunk handling of frontend_dispatch_resolver. -/

/-- Position and capacity of the sldns answer buffer of a pending query. -/
structure Abuf where
  pos : Nat
  cap : Nat
deriving DecidableEq

/-- The answer_header carried by an IMSG_ANSWER message. -/
structure AnswerHeader where
  id : Nat
  srvfail : Bool
  bogus : Bool
  answer_len : Nat
deriving DecidableEq

/-- Observable outcome of handling one IMSG_ANSWER chunk. -/
inductive AnswerEvent where
  | chunk_dropped : AnswerEvent
  | servfail_drop : AnswerEvent
  | answer_sent : Nat → AnswerEvent
  | buffered : Abuf → AnswerEvent
  | proc_fatal : AnswerEvent
deriving DecidableEq

/-- Modelled from the spec (reply post-processing): noerror_answer parses
the accumulated wire reply before re-encoding; a buffer that cannot hold
even a DNS header cannot parse, so a SERVFAIL is encoded instead. -/
def noerror_rcode_of_len (len : Nat) : Nat :=
  if len < LDNS_HEADER_SIZE then LDNS_RCODE_SERVFAIL else LDNS_RCODE_NOERROR

/-- Embedding of the IMSG_ANSWER branch of frontend_dispatch_resolver.
Arguments: whether find_pending_query located the query, the CD bit of the
parsed query flags, the current abuf state, the answer header, the chunk
payload length (IMSG_DATA_SIZE minus the header size), and whether the
sldns_buffer_set_capacity reallocation succeeds.  The answer_len bound
check and the capacity overflow check call fatalx, which terminates the
whole frontend process. -/
def dispatch_answer (found : Bool) (query_cd : Bool) (ab : Abuf)
    (hdr : AnswerHeader) (data_len : Nat) (alloc_ok : Bool) : AnswerEvent :=
  if hdr.answer_len > 65535 then .proc_fatal
  else if !found then .chunk_dropped
  else if hdr.srvfail then .servfail_drop
  else if hdr.bogus ∧ !query_cd then .servfail_drop
  else if ab.pos = 0 ∧ !alloc_ok then .servfail_drop
  else
    let ab1 := if ab.pos = 0 then { pos := 0, cap := hdr.answer_len } else ab
    if ab1.pos + data_len > ab1.cap then .proc_fatal
    else
      let ab2 : Abuf := { pos := ab1.pos + data_len, cap := ab1.cap }
      if ab2.pos = ab2.cap then .answer_sent (noerror_rcode_of_len ab2.cap)
      else .buffered ab2

/- The pending-query table and its id discipline. -/

/-- The slice of struct pending_query needed for the table claims. -/
structure PendingQueryRec where
  imsg_id : Nat
  tcp : Bool
  fd : Int
deriving DecidableEq

/-- Embedding of find_pending_query: walk the TAILQ from the head and
return the first entry whose imsg_id matches. -/
def find_pending_query (t : List PendingQueryRec) (i : Nat) : Option PendingQueryRec :=
  t.find? (fun pq => pq.imsg_id == i)

/-- The arc4random_buf retry loop of udp_receive and tcp_accept: draw ids
from the random stream until one is absent from the table. -/
def fresh_imsg_id (t : List PendingQueryRec) : List Nat → Option Nat
  | [] => none
  | c :: cs => if find_pending_query t c = none then some c else fresh_imsg_id t cs

/-- Transitions of the pending-query table: udp_receive and tcp_accept
insert at the tail after the fresh-id retry loop, and free_pending_query
removes an entry (TAILQ_REMOVE of a node that is on the list). -/
inductive FrontStep (t : List PendingQueryRec) : List PendingQueryRec → Prop where
  | udp_receive (draws : List Nat) (i : Nat) (fd : Int)
      (h : fresh_imsg_id t draws = some i) :
      FrontStep t (t ++ [{ imsg_id := i, tcp := false, fd := fd }])
  | tcp_accept (draws : List Nat) (i : Nat) (fd : Int)
      (h : fresh_imsg_id t draws = some i) :
      FrontStep t (t ++ [{ imsg_id := i, tcp := true, fd := fd }])
  | free_query (pq : PendingQueryRec) (h : pq ∈ t) :
      FrontStep t (t.erase pq)

/-- States of the pending-query table reachable from the empty table. -/
inductive FrontReachable : List PendingQueryRec → Prop where
  | init : FrontReachable []
  | step {t u : List PendingQueryRec} :
      FrontReachable t → FrontStep t u → FrontReachable u

/- Trust-anchor merging (merge_tas). -/

/-- The change-detection loop of merge_tas: walk both ordered lists in
parallel; a first element mismatch, or the old list ending first, sets chg
inside the loop, and the old list being longer sets it after the loop. -/
def tas_differ : List String → List String → Bool
  | [], [] => false
  | [], _ :: _ => true
  | _ :: _, [] => true
  | i :: is, j :: js => if i ≠ j then true else tas_differ is js

/-- Embedding of merge_tas from frontend.c.  Returns the chg flag, the
contents of the old head afterwards, and the contents of the new head
afterwards: on change the old list is freed and the new list concatenated
over (emptying it), otherwise the new list is freed. -/
def merge_tas (newh oldh : List String) : Bool × List String × List String :=
  let chg := tas_differ newh oldh
  if chg then (true, newh, []) else (false, oldh, [])

/- PKCS12_newpass (p12_npas.c). -/

/-- The authsafe content types PKCS12_newpass distinguishes via
OBJ_obj2nid. -/
inductive P7Kind where
  | p7data : P7Kind
  | p7encrypted : P7Kind
  | p7other : P7Kind
deriving DecidableEq

/-- Environment of one PKCS12_newpass run: outcomes of the fallible calls
it makes, with the per-element repack outcomes indexed by position. -/
structure NewpassEnv where
  pkcs12_present : Bool
  mac_ok : Bool
  authsafes : Option (List P7Kind)
  sk_new_ok : Bool
  repack_data_ok : Nat → Bool
  repack_encdata_ok : Nat → Bool
  repack_authsafes_ok : Bool

/-- The authsafes loop of PKCS12_newpass: for a pkcs7-data element a
succeeding pkcs7_repack_data jumps to err (the loop aborts), likewise for
pkcs7-encrypted and pkcs7_repack_encdata; a failing repack call falls
through and the loop continues. -/
def newpass_loop_aborts (env : NewpassEnv) : List P7Kind → Nat → Bool
  | [], _ => false
  | k :: rest, i =>
    match k with
    | .p7data =>
      if env.repack_data_ok i then true else newpass_loop_aborts env rest (i + 1)
    | .p7encrypted =>
      if env.repack_encdata_ok i then true else newpass_loop_aborts env rest (i + 1)
    | .p7other => newpass_loop_aborts env rest (i + 1)

/-- Embedding of PKCS12_newpass from p12_npas.c: the guard cascade, the
authsafes loop, and the final repack of the authsafes, returning ret which
is zero unless the very end is reached. -/
def PKCS12_newpass (env : NewpassEnv) : Int :=
  if !env.pkcs12_present then 0
  else if !env.mac_ok then 0
  else
    match env.authsafes with
    | none => 0
    | some safes =>
      if !env.sk_new_ok then 0
      else if newpass_loop_aborts env safes 0 then 0
      else if !env.repack_authsafes_ok then 0
      else 1

/- TCP accept backoff (accept_reserve, tcp_accept, accept_paused). -/

def FD_RESERVE : Nat := 5

def TCP_BACKOFF : Nat := 1

/- errno values on OpenBSD. -/

def EINTR_ERR : Nat := 4

def ENFILE_ERR : Nat := 23

def EMFILE_ERR : Nat := 24

def EWOULDBLOCK_ERR : Nat := 35

def ECONNABORTED_ERR : Nat := 53

/-- Result of accept_reserve: either a connection was accepted by accept4,
or the call failed with an errno before or inside accept4. -/
inductive AcceptRes where
  | accepted : AcceptRes
  | failed : Nat → AcceptRes
deriving DecidableEq

/-- Embedding of accept_reserve from frontend.c: when the descriptor count
plus the reserve of five reaches the table size, fail with EMFILE without
calling accept4; otherwise call accept4, whose outcome (success or an
errno) is a parameter of the model. -/
def accept_reserve (dtablecount dtablesize : Nat)
    (accept4_errno : Option Nat) : AcceptRes :=
  if dtablecount + FD_RESERVE ≥ dtablesize then .failed EMFILE_ERR
  else
    match accept4_errno with
    | none => .accepted
    | some err => .failed err

/-- State of one tcp_accept_ev: whether the accept event is armed with the
event loop, and whether the pause (backoff) timer is pending and for which
deadline. -/
structure TcpAcceptEv where
  armed : Bool
  pause_armed : Bool
  pause_deadline : Nat
deriving DecidableEq

/-- Events delivered to the frontend for one listening TCP socket: the
socket became readable (with the current descriptor usage and the accept4
outcome), or the backoff timer fired. -/
inductive FeEvent where
  | accept_ready (dtablecount dtablesize : Nat) (accept4_errno : Option Nat) : FeEvent
  | pause_timer : FeEvent
deriving DecidableEq

/-- One step of the tcp_accept and accept_paused handlers at time now.
Returns the new event state and whether a connection was accepted.  An
unarmed event receives no callback.  On EMFILE or ENFILE tcp_accept unarms
the accept event and arms the one-second backoff timer; on EINTR,
EWOULDBLOCK or ECONNABORTED it plainly returns (frontend.c calls fatal on
any other errno, which ends the process and is outside this model).  The
pause timer firing at or after its deadline rearms the accept event. -/
def tcp_accept_step (s : TcpAcceptEv) (now : Nat) (e : FeEvent) : TcpAcceptEv × Bool :=
  match e with
  | .accept_ready dtc dts e4 =>
    if !s.armed then (s, false)
    else
      match accept_reserve dtc dts e4 with
      | .accepted => (s, true)
      | .failed err =>
        if err = EMFILE_ERR ∨ err = ENFILE_ERR then
          ({ armed := false, pause_armed := true,
             pause_deadline := now + TCP_BACKOFF }, false)
        else (s, false)
  | .pause_timer =>
    if s.pause_armed ∧ s.pause_deadline ≤ now then
      ({ armed := true, pause_armed := false, pause_deadline := 0 }, false)
    else (s, false)

/-- The times at which connections are accepted while running a timed event
trace from a given state. -/
def accepted_times (s : TcpAcceptEv) : List (Nat × FeEvent) → List Nat
  | [] => []
  | (t, e) :: rest =>
    let r := tcp_accept_step s t e
    (if r.2 then [t] else []) ++ accepted_times r.1 rest

/- Release of a pending query (free_pending_query) and its frame effect. -/

/-- Event kinds owned by a TCP pending query. -/
inductive EvKind where
  | ev_read : EvKind
  | ev_resp : EvKind
  | ev_tmo : EvKind
deriving DecidableEq

/-- The frontend resources touched by free_pending_query: the table of
pending queries, the set of open descriptors, the armed events keyed by the
owning query id, and the live per-query memory regions keyed likewise. -/
structure FrontendAlloc where
  queries : List PendingQueryRec
  open_fds : List Int
  armed_events : List (Nat × EvKind)
  regions : List Nat
deriving DecidableEq

/-- Embedding of free_pending_query from frontend.c: the query is always
removed from the table and its buffers and region always freed; only when
the transport is TCP are the read, response and timeout events deleted and
the descriptor closed (when valid). -/
def free_pending_query (st : FrontendAlloc) (pq : PendingQueryRec) : FrontendAlloc :=
  { queries := st.queries.filter (fun q => q.imsg_id != pq.imsg_id),
    regions := st.regions.filter (fun r => r != pq.imsg_id),
    armed_events :=
      if pq.tcp then st.armed_events.filter (fun e => e.1 != pq.imsg_id)
      else st.armed_events,
    open_fds :=
      if pq.tcp ∧ pq.fd ≠ -1 then st.open_fds.erase pq.fd
      else st.open_fds }

/- Theorems. -/

/-- Helper: the merge_tas change-detection loop signals exactly list
inequality. -/
theorem tas_differ_iff (a b : List String) : tas_differ a b = true ↔ a ≠ b := by
  induction a generalizing b with
  | nil => cases b <;> simp [tas_differ]
  | cons i is ih =>
    cases b with
    | nil => simp [tas_differ]
    | cons j js =>
      by_cases h : i = j
      · subst h
        simp [tas_differ, ih]
      · simp [tas_differ, h]

/-- C7: merge_tas returns changed exactly when the two ordered trust-anchor
sequences differ element-wise; on change the current list is replaced by
the new one (which is emptied), and when unchanged the current list keeps
exactly its previous elements. -/
theorem merge_tas_change_detection (newh oldh : List String) :
    ((merge_tas newh oldh).1 = true ↔ newh ≠ oldh) ∧
    (merge_tas newh oldh).2.1 = (if newh = oldh then oldh else newh) ∧
    (merge_tas newh oldh).2.2 = [] := by
  by_cases h : newh = oldh
  · subst h
    have hd : tas_differ newh newh = false := by
      have := tas_differ_iff newh newh
      simp at this
      exact this
    simp [merge_tas, hd]
  · have hd : tas_differ newh oldh = true := (tas_differ_iff newh oldh).mpr h
    simp [merge_tas, hd, h]

/-- C4: every answer the frontend builds for a client query carries the
header id of the original query wire: error_answer and noerror_answer
encode with qmsg.id, which parse_packet took from the query header, and
chaos_answer copies the query header bytes, skipping (never rewriting) the
id octets. -/
theorem answer_id_matches_query (q : QueryWire) (tcp ednsp rok : Bool) (rcode : Nat) :
    (error_answer
      { qbuf := q, qmsg := parse_packet q, tcp := tcp, edns_present := ednsp }
      rcode).id = q.id ∧
    (noerror_answer
      { qbuf := q, qmsg := parse_packet q, tcp := tcp, edns_present := ednsp }
      rok).id = q.id ∧
    (chaos_answer
      { qbuf := q, qmsg := parse_packet q, tcp := tcp, edns_present := ednsp }).id
      = q.id := by
  cases rok <;>
    simp [error_answer, error_encode, noerror_answer, chaos_answer, parse_packet]

/-- C5: check_query applies its rules in source order: short packet drop,
QR drop, TC clear with FORMERR, missing RD with REFUSED, non-QUERY opcode
with NOTIMPL, then FORMERR exactly on the counts conjunction and accept in
every remaining case. -/
theorem check_query_rule_order (p : DnsHeader) :
    (p.limit < 12 → check_query p = (-1, p)) ∧
    (12 ≤ p.limit → p.qr = true → check_query p = (-1, p)) ∧
    (12 ≤ p.limit → p.qr = false → p.tc = true →
      check_query p = (1, { p with tc := false })) ∧
    (12 ≤ p.limit → p.qr = false → p.tc = false → p.rd = false →
      check_query p = (5, p)) ∧
    (12 ≤ p.limit → p.qr = false → p.tc = false → p.rd = true → p.opcode ≠ 0 →
      check_query p = (4, p)) ∧
    (12 ≤ p.limit → p.qr = false → p.tc = false → p.rd = true → p.opcode = 0 →
      ((p.qdcount ≠ 1 ∧ p.ancount ≠ 0 ∧ p.nscount ≠ 0 ∧ p.arcount > 1 →
         check_query p = (1, p)) ∧
       (¬(p.qdcount ≠ 1 ∧ p.ancount ≠ 0 ∧ p.nscount ≠ 0 ∧ p.arcount > 1) →
         check_query p = (0, p)))) := by
  unfold check_query LDNS_HEADER_SIZE LDNS_PACKET_QUERY LDNS_RCODE_FORMERR
    LDNS_RCODE_REFUSED LDNS_RCODE_NOTIMPL
  refine ⟨?_, ?_, ?_, ?_, ?_, ?_⟩
  · intro h
    simp [h]
  · intro h hqr
    rw [if_neg (by omega), if_pos hqr]
  · intro h hqr htc
    rw [if_neg (by omega)]
    simp [hqr, htc]
  · intro h hqr htc hrd
    rw [if_neg (by omega)]
    simp [hqr, htc, hrd]
  · intro h hqr htc hrd hop
    rw [if_neg (by omega)]
    simp [hqr, htc, hrd, hop]
  · intro h hqr htc hrd hop
    rw [if_neg (by omega)]
    constructor
    · intro hc
      simp [hqr, htc, hrd, hop, hc]
    · intro hc
      simp [hqr, htc, hrd, hop, hc]

/-- Witness for check_query_rule_order at a concrete packet: a 12-byte
query with RD clear is rejected with REFUSED. -/
theorem check_query_rule_order_witness :
    check_query
      { limit := 12, qr := false, tc := false, rd := false, opcode := 0,
        qdcount := 1, ancount := 0, nscount := 0, arcount := 0 } =
    (5, { limit := 12, qr := false, tc := false, rd := false, opcode := 0,
          qdcount := 1, ancount := 0, nscount := 0, arcount := 0 }) :=
  (check_query_rule_order _).2.2.2.1 (by decide) rfl rfl rfl

/-- C2 counterexample: a well-formed query for a blocklisted name with the
meta qtype OPT is answered with REFUSED by the blocklist check, which
frontend.c runs before the meta-qtype check, not with the FORMERR the
claim requires. -/
theorem meta_qtype_blocklist_cex :
    handle_query_screen ["blocked.example."]
      { cq := 0, edns_rcode := 0, dname_ok := true, dname := "blocked.example.",
        qtype := 41, qclass := 1, qname_fits := true, compose_ok := true } =
      QueryOutcome.answer LDNS_RCODE_REFUSED ∧
    QueryOutcome.answer LDNS_RCODE_REFUSED ≠ QueryOutcome.answer LDNS_RCODE_FORMERR := by
  constructor
  · rfl
  · decide

/-- C2 amended: after the header guards and parse, handle_query screens in
the order invalid qname, blocklist, AXFR and IXFR, meta qtypes, CH class;
a meta qtype (OPT, TSIG, TKEY, MAILA, MAILB, 128..248) is answered FORMERR
provided the qname is valid and not blocklisted, an invalid qname is
FORMERR outright, and a blocklisted qname is REFUSED regardless of
qtype. -/
theorem screening_order_amended :
    (∀ (bl : List String) (q : ParsedQuery), q.cq = 0 → q.edns_rcode = 0 →
      q.dname_ok = true → bl_contains bl q.dname = false →
      (q.qtype = LDNS_RR_TYPE_OPT ∨ q.qtype = LDNS_RR_TYPE_TSIG ∨
        q.qtype = LDNS_RR_TYPE_TKEY ∨ q.qtype = LDNS_RR_TYPE_MAILA ∨
        q.qtype = LDNS_RR_TYPE_MAILB ∨ (128 ≤ q.qtype ∧ q.qtype ≤ 248)) →
      handle_query_screen bl q = QueryOutcome.answer LDNS_RCODE_FORMERR) ∧
    (∀ (bl : List String) (q : ParsedQuery), q.cq = 0 → q.edns_rcode = 0 →
      q.dname_ok = false →
      handle_query_screen bl q = QueryOutcome.answer LDNS_RCODE_FORMERR) ∧
    (∀ (bl : List String) (q : ParsedQuery), q.cq = 0 → q.edns_rcode = 0 →
      q.dname_ok = true → bl_contains bl q.dname = true →
      handle_query_screen bl q = QueryOutcome.answer LDNS_RCODE_REFUSED) := by
  refine ⟨?_, ?_, ?_⟩
  · intro bl q h0 h1 h2 h3 hmeta
    have hax : ¬(q.qtype = LDNS_RR_TYPE_AXFR ∨ q.qtype = LDNS_RR_TYPE_IXFR) := by
      unfold LDNS_RR_TYPE_AXFR LDNS_RR_TYPE_IXFR
      unfold LDNS_RR_TYPE_OPT LDNS_RR_TYPE_TSIG LDNS_RR_TYPE_TKEY
        LDNS_RR_TYPE_MAILA LDNS_RR_TYPE_MAILB at hmeta
      rcases hmeta with h | h | h | h | h | ⟨ha, hb⟩ <;> omega
    simp [handle_query_screen, h0, h1, h2, h3, hax, hmeta, LDNS_RCODE_NOERROR]
  · intro bl q h0 h1 h2
    simp [handle_query_screen, h0, h1, h2, LDNS_RCODE_NOERROR]
  · intro bl q h0 h1 h2 h3
    simp [handle_query_screen, h0, h1, h2, h3, LDNS_RCODE_NOERROR]

/-- Witness for screening_order_amended: with an empty blocklist a valid
query of qtype OPT is answered FORMERR. -/
theorem screening_order_amended_witness :
    handle_query_screen []
      { cq := 0, edns_rcode := 0, dname_ok := true, dname := "www.example.",
        qtype := 41, qclass := 1, qname_fits := true, compose_ok := true } =
      QueryOutcome.answer LDNS_RCODE_FORMERR :=
  screening_order_amended.1 [] _ rfl rfl rfl rfl (Or.inl rfl)

/-- Helper: every entry produced by the parse_blocklist fold is either from
the starting accumulator or the bl_line image of some input line. -/
theorem mem_foldl_insert_bl (lines : List (List Char)) (acc : List (List Char))
    (e : List Char)
    (he : e ∈ lines.foldl (fun a l => insert_bl a (bl_line l)) acc) :
    e ∈ acc ∨ ∃ l ∈ lines, e = bl_line l := by
  induction lines generalizing acc with
  | nil =>
    simp only [List.foldl_nil] at he
    exact Or.inl he
  | cons l ls ih =>
    simp only [List.foldl_cons] at he
    rcases ih _ he with h | ⟨l2, hl2, he2⟩
    · unfold insert_bl at h
      split at h
      · exact Or.inl h
      · rcases List.mem_append.mp h with h | h
        · exact Or.inl h
        · simp only [List.mem_singleton] at h
          exact Or.inr ⟨l, by simp, h⟩
    · exact Or.inr ⟨l2, by simp [hl2], he2⟩

/-- Helper: the bl_line transform of a newline-terminated line of length at
least two ends in a dot. -/
theorem bl_line_ends_dot (l : List Char) (hnl : l.getLast? = some '\n')
    (hlen : 2 ≤ l.length) : (bl_line l).getLast? = some '.' := by
  unfold bl_line
  rw [if_pos hnl]
  by_cases hdot : l.dropLast.getLast? = some '.'
  · rw [if_neg (by simp [hdot])]
    exact hdot
  · rw [if_pos ⟨hlen, hdot⟩]
    simp

/-- C3 counterexample: a blocklist file whose single line has no trailing
newline is stored verbatim, without a dot appended, so the stored domain
does not end in a dot as the claim requires. -/
theorem blocklist_line_no_dot_cex :
    parse_blocklist ("foo".data) = ["foo".data] ∧
    ("foo".data).getLast? ≠ some '.' := by
  constructor
  · rfl
  · decide

/-- C3 amended: every entry stored by parse_blocklist is the bl_line image
of some getline line of the input: a line ending in a newline of length at
least two has the newline replaced by a dot when the preceding character is
not already a dot and merely stripped otherwise (so such entries always end
in a dot), while a final line without a trailing newline is stored
verbatim, possibly without a trailing dot. -/
theorem parse_blocklist_entry_shape (file e : List Char)
    (he : e ∈ parse_blocklist file) :
    ∃ line ∈ getlines file, e = bl_line line ∧
      (line.getLast? = some '\n' → 2 ≤ line.length → e.getLast? = some '.') ∧
      (line.getLast? ≠ some '\n' → e = line) := by
  unfold parse_blocklist at he
  rcases mem_foldl_insert_bl _ _ _ he with h | ⟨l, hl, hel⟩
  · simp at h
  · refine ⟨l, hl, hel, ?_, ?_⟩
    · intro hnl hlen
      rw [hel]
      exact bl_line_ends_dot l hnl hlen
    · intro hnl
      rw [hel]
      unfold bl_line
      rw [if_neg hnl]

/-- Witness for parse_blocklist_entry_shape: the file with the single line
consisting of a dotted name plus newline stores that name with the newline
stripped. -/
theorem parse_blocklist_entry_shape_witness :
    ∃ line ∈ getlines ("a.\n".data), "a.".data = bl_line line ∧
      (line.getLast? = some '\n' → 2 ≤ line.length →
        ("a.".data).getLast? = some '.') ∧
      (line.getLast? ≠ some '\n' → "a.".data = line) :=
  parse_blocklist_entry_shape ("a.\n".data) ("a.".data) (by decide)

/-- C1 counterexample: a later IMSG_ANSWER chunk that would overflow the
fixed abuf capacity does not produce a SERVFAIL answer; frontend.c calls
fatalx, terminating the whole process. -/
theorem answer_overflow_fatal_cex :
    dispatch_answer true false { pos := 2, cap := 4 }
      { id := 7, srvfail := false, bogus := false, answer_len := 4 } 3 true =
      AnswerEvent.proc_fatal ∧
    AnswerEvent.proc_fatal ≠ AnswerEvent.servfail_drop := by
  constructor
  · rfl
  · decide

/-- C1 amended: for a live pending query whose chunk carries neither the
srvfail nor the effective bogus flag, a first chunk whose capacity
reallocation fails yields SERVFAIL and releases the query; a first chunk
announcing answer_len zero with no payload completes at capacity zero and
the unparseable empty reply is answered SERVFAIL (query released); but a
later chunk that would exceed the fixed capacity is handled by fatalx,
which terminates the whole frontend process rather than staying local to
the query. -/
theorem answer_chunk_failure_paths (query_cd : Bool) (ab : Abuf)
    (hdr : AnswerHeader) (data_len : Nat) (hlen : hdr.answer_len ≤ 65535)
    (hsf : hdr.srvfail = false) (hbg : hdr.bogus = false) :
    (ab.pos = 0 → dispatch_answer true query_cd ab hdr data_len false =
      AnswerEvent.servfail_drop) ∧
    (ab.pos = 0 → hdr.answer_len = 0 → data_len = 0 →
      dispatch_answer true query_cd ab hdr data_len true =
        AnswerEvent.answer_sent LDNS_RCODE_SERVFAIL) ∧
    (ab.pos ≠ 0 → ab.cap < ab.pos + data_len →
      dispatch_answer true query_cd ab hdr data_len true =
        AnswerEvent.proc_fatal) := by
  have h65 : ¬hdr.answer_len > 65535 := by omega
  refine ⟨?_, ?_, ?_⟩
  · intro hpos
    simp [dispatch_answer, h65, hsf, hbg, hpos]
  · intro hpos hal hdl
    simp [dispatch_answer, h65, hsf, hbg, hpos, hal, hdl, noerror_rcode_of_len,
      LDNS_HEADER_SIZE, LDNS_RCODE_SERVFAIL]
  · intro hpos hover
    simp [dispatch_answer, h65, hsf, hbg, hpos, hover]

/-- Witness for answer_chunk_failure_paths: a first chunk whose capacity
allocation fails is answered SERVFAIL and the query released. -/
theorem answer_chunk_failure_paths_witness :
    dispatch_answer true false { pos := 0, cap := 0 }
      { id := 3, srvfail := false, bogus := false, answer_len := 5 } 0 false =
      AnswerEvent.servfail_drop :=
  (answer_chunk_failure_paths false { pos := 0, cap := 0 }
    { id := 3, srvfail := false, bogus := false, answer_len := 5 } 0
    (by decide) rfl rfl).1 rfl

/-- Helper: the fresh-id retry loop only returns an id that is absent from
the table. -/
theorem fresh_imsg_id_not_found (t : List PendingQueryRec) (draws : List Nat)
    (i : Nat) (h : fresh_imsg_id t draws = some i) :
    find_pending_query t i = none := by
  induction draws with
  | nil => simp [fresh_imsg_id] at h
  | cons c cs ih =>
    unfold fresh_imsg_id at h
    split at h
    · cases h
      assumption
    · exact ih h

/-- Helper: an id absent from the table differs from the id of every
entry. -/
theorem find_none_forall (t : List PendingQueryRec) (i : Nat)
    (h : find_pending_query t i = none) :
    ∀ pq ∈ t, pq.imsg_id ≠ i := by
  intro pq hm
  have := List.find?_eq_none.mp h pq hm
  simpa using this

/-- Helper: every reachable pending-query table has pairwise distinct
imsg_id values. -/
theorem front_reachable_nodup (t : List PendingQueryRec) (h : FrontReachable t) :
    (t.map (fun pq => pq.imsg_id)).Nodup := by
  induction h with
  | init => simp
  | step hr hs ih =>
    rename_i t0 u0
    cases hs with
    | udp_receive draws i fd hf =>
      have hni : i ∉ t0.map (fun pq => pq.imsg_id) := by
        intro hmem
        rcases List.mem_map.mp hmem with ⟨pq, hpq, hid⟩
        exact find_none_forall t0 i (fresh_imsg_id_not_found t0 draws i hf) pq hpq hid
      simp only [List.map_append, List.map_cons, List.map_nil]
      rw [List.nodup_append]
      refine ⟨ih, by simp, ?_⟩
      intro a ha hb
      simp only [List.mem_singleton] at hb
      subst hb
      exact hni ha
    | tcp_accept draws i fd hf =>
      have hni : i ∉ t0.map (fun pq => pq.imsg_id) := by
        intro hmem
        rcases List.mem_map.mp hmem with ⟨pq, hpq, hid⟩
        exact find_none_forall t0 i (fresh_imsg_id_not_found t0 draws i hf) pq hpq hid
      simp only [List.map_append, List.map_cons, List.map_nil]
      rw [List.nodup_append]
      refine ⟨ih, by simp, ?_⟩
      intro a ha hb
      simp only [List.mem_singleton] at hb
      subst hb
      exact hni ha
    | free_query pq hm =>
      exact ((List.erase_sublist pq t0).map (fun pq => pq.imsg_id)).nodup ih

/-- Helper: in a table with pairwise distinct ids, find_pending_query on the
id of a member returns exactly that member. -/
theorem find_pending_query_mem (t : List PendingQueryRec) (pq : PendingQueryRec)
    (hnd : (t.map (fun q => q.imsg_id)).Nodup) (hm : pq ∈ t) :
    find_pending_query t pq.imsg_id = some pq := by
  induction t with
  | nil => cases hm
  | cons a as ih =>
    rcases List.mem_cons.mp hm with rfl | hm2
    · simp [find_pending_query, List.find?_cons]
    · have hne : (a.imsg_id == pq.imsg_id) = false := by
        simp only [List.map_cons, List.nodup_cons] at hnd
        have : pq.imsg_id ∈ as.map (fun q => q.imsg_id) :=
          List.mem_map.mpr ⟨pq, hm2, rfl⟩
        simp only [beq_eq_false_iff_ne, ne_eq]
        intro hid
        exact hnd.1 (hid ▸ this)
      have hnd2 : (as.map (fun q => q.imsg_id)).Nodup := by
        simp only [List.map_cons, List.nodup_cons] at hnd
        exact hnd.2
      unfold find_pending_query at ih ⊢
      rw [List.find?_cons, hne]
      exact ih hnd2 hm2

/-- C6: at every reachable state of the pending-query table the live
queries have pairwise distinct imsg_id values and find_pending_query maps
each id back to exactly its query; moreover both creation paths only insert
an id after the retry loop verified it was absent from the table. -/
theorem pending_query_ids_unique (t : List PendingQueryRec)
    (h : FrontReachable t) :
    (t.map (fun pq => pq.imsg_id)).Nodup ∧
    (∀ pq ∈ t, find_pending_query t pq.imsg_id = some pq) ∧
    (∀ (u : List PendingQueryRec) (draws : List Nat) (i : Nat),
      fresh_imsg_id u draws = some i → find_pending_query u i = none) := by
  have hnd := front_reachable_nodup t h
  exact ⟨hnd, fun pq hm => find_pending_query_mem t pq hnd hm,
    fresh_imsg_id_not_found⟩

/-- Witness for pending_query_ids_unique at a concrete reachable state: the
table holding one UDP query inserted with the fresh id five. -/
theorem pending_query_ids_unique_witness :
    (([{ imsg_id := 5, tcp := false, fd := 3 }] :
        List PendingQueryRec).map (fun pq => pq.imsg_id)).Nodup ∧
    (∀ pq ∈ ([{ imsg_id := 5, tcp := false, fd := 3 }] : List PendingQueryRec),
      find_pending_query [{ imsg_id := 5, tcp := false, fd := 3 }] pq.imsg_id =
        some pq) ∧
    (∀ (u : List PendingQueryRec) (draws : List Nat) (i : Nat),
      fresh_imsg_id u draws = some i → find_pending_query u i = none) :=
  pending_query_ids_unique [{ imsg_id := 5, tcp := false, fd := 3 }]
    (FrontReachable.step FrontReachable.init
      (FrontStep.udp_receive [5] 5 3 (by decide)))

/-- Helper: the PKCS12_newpass authsafes loop jumps to err as soon as some
element of a handled kind has a succeeding repack call. -/
theorem newpass_loop_aborts_of_get (env : NewpassEnv) (l : List P7Kind)
    (i j : Nat)
    (h : (l.get? j = some P7Kind.p7data ∧ env.repack_data_ok (i + j) = true) ∨
      (l.get? j = some P7Kind.p7encrypted ∧
        env.repack_encdata_ok (i + j) = true)) :
    newpass_loop_aborts env l i = true := by
  induction l generalizing i j with
  | nil => rcases h with ⟨h, _⟩ | ⟨h, _⟩ <;> simp at h
  | cons k rest ih =>
    cases j with
    | zero =>
      rcases h with ⟨hk, hr⟩ | ⟨hk, hr⟩ <;> simp only [List.get?_cons_zero,
        Option.some.injEq] at hk <;> subst hk <;>
        simp only [Nat.add_zero] at hr <;> simp [newpass_loop_aborts, hr]
    | succ j2 =>
      have h2 : (rest.get? j2 = some P7Kind.p7data ∧
            env.repack_data_ok ((i + 1) + j2) = true) ∨
          (rest.get? j2 = some P7Kind.p7encrypted ∧
            env.repack_encdata_ok ((i + 1) + j2) = true) := by
        have harith : i + (j2 + 1) = (i + 1) + j2 := by omega
        rcases h with ⟨hk, hr⟩ | ⟨hk, hr⟩
        · exact Or.inl ⟨by simpa using hk, by rw [← harith]; exact hr⟩
        · exact Or.inr ⟨by simpa using hk, by rw [← harith]; exact hr⟩
      cases k with
      | p7data =>
        unfold newpass_loop_aborts
        by_cases hd : env.repack_data_ok i
        · simp [hd]
        · simp [hd]
          exact ih (i + 1) j2 h2
      | p7encrypted =>
        unfold newpass_loop_aborts
        by_cases hd : env.repack_encdata_ok i
        · simp [hd]
        · simp [hd]
          exact ih (i + 1) j2 h2
      | p7other =>
        unfold newpass_loop_aborts
        exact ih (i + 1) j2 h2

/-- C8: PKCS12_newpass returns failure (ret still zero via the error exit)
whenever, for an input that passes the null, MAC, unpack and stack
guards, some pkcs7-data or pkcs7-encrypted authsafe element has a
succeeding pkcs7_repack_data or pkcs7_repack_encdata call: the if
condition jumps to err on repack success. -/
theorem PKCS12_newpass_success_fails (env : NewpassEnv) (safes : List P7Kind)
    (j : Nat) (hp : env.pkcs12_present = true) (hm : env.mac_ok = true)
    (ha : env.authsafes = some safes) (hs : env.sk_new_ok = true)
    (htrig : (safes.get? j = some P7Kind.p7data ∧
        env.repack_data_ok j = true) ∨
      (safes.get? j = some P7Kind.p7encrypted ∧
        env.repack_encdata_ok j = true)) :
    PKCS12_newpass env = 0 := by
  have habort : newpass_loop_aborts env safes 0 = true :=
    newpass_loop_aborts_of_get env safes 0 j (by simpa using htrig)
  simp [PKCS12_newpass, hp, hm, ha, hs, habort]

/-- Witness for PKCS12_newpass_success_fails: a PKCS12 with one pkcs7-data
authsafe whose repack succeeds makes the routine return zero. -/
theorem PKCS12_newpass_success_fails_witness :
    PKCS12_newpass
      { pkcs12_present := true, mac_ok := true,
        authsafes := some [P7Kind.p7data], sk_new_ok := true,
        repack_data_ok := fun _ => true, repack_encdata_ok := fun _ => true,
        repack_authsafes_ok := true } = 0 :=
  PKCS12_newpass_success_fails _ [P7Kind.p7data] 0 rfl rfl rfl rfl
    (Or.inl ⟨rfl, rfl⟩)

/-- C10: free_pending_query always removes the query from the table and
frees its region, while the open descriptors and armed events are left
untouched for a UDP query (so the shared UDP listening socket stays open)
and are torn down, descriptor included, exactly for TCP. -/
theorem free_pending_query_frame (st : FrontendAlloc) (pq : PendingQueryRec) :
    (∀ q ∈ (free_pending_query st pq).queries, q.imsg_id ≠ pq.imsg_id) ∧
    (∀ r ∈ (free_pending_query st pq).regions, r ≠ pq.imsg_id) ∧
    (pq.tcp = false → (free_pending_query st pq).open_fds = st.open_fds ∧
      (free_pending_query st pq).armed_events = st.armed_events) ∧
    (pq.tcp = true → pq.fd ≠ -1 →
      (free_pending_query st pq).open_fds = st.open_fds.erase pq.fd ∧
      (free_pending_query st pq).armed_events =
        st.armed_events.filter (fun e => e.1 != pq.imsg_id)) ∧
    (pq.tcp = false → pq.fd ∈ st.open_fds →
      pq.fd ∈ (free_pending_query st pq).open_fds) := by
  refine ⟨?_, ?_, ?_, ?_, ?_⟩
  · intro q hq
    have := (List.mem_filter.mp hq).2
    simpa using this
  · intro r hr
    have := (List.mem_filter.mp hr).2
    simpa using this
  · intro htcp
    constructor
    · simp [free_pending_query, htcp]
    · simp [free_pending_query, htcp]
  · intro htcp hfd
    constructor
    · simp [free_pending_query, htcp, hfd]
    · simp [free_pending_query, htcp]
  · intro htcp hmem
    simpa [free_pending_query, htcp] using hmem

/-- Witness for free_pending_query_frame: releasing a concrete UDP query
leaves the open descriptor list untouched. -/
theorem free_pending_query_frame_witness :
    (free_pending_query
      { queries := [{ imsg_id := 9, tcp := false, fd := 4 }],
        open_fds := [4], armed_events := [], regions := [9] }
      { imsg_id := 9, tcp := false, fd := 4 }).open_fds = [4] :=
  ((free_pending_query_frame
    { queries := [{ imsg_id := 9, tcp := false, fd := 4 }],
      open_fds := [4], armed_events := [], regions := [9] }
    { imsg_id := 9, tcp := false, fd := 4 }).2.2.1 rfl).1

/-- Helper: every accepted connection happens at the time of some event of
the trace. -/
theorem accepted_times_subset (s : TcpAcceptEv) (trace : List (Nat × FeEvent)) :
    ∀ t ∈ accepted_times s trace, t ∈ trace.map Prod.fst := by
  induction trace generalizing s with
  | nil => simp [accepted_times]
  | cons p rest ih =>
    intro t ht
    obtain ⟨pt, pe⟩ := p
    unfold accepted_times at ht
    rcases List.mem_append.mp ht with h | h
    · split at h
      · simp only [List.mem_singleton] at h
        simp [h]
      · simp at h
    · simp only [List.map_cons, List.mem_cons]
      exact Or.inr (ih _ t h)

/-- Helper: from the paused state (accept event unarmed, backoff timer
pending for deadline d) no connection is accepted before time d, along any
trace of time-ordered events. -/
theorem backoff_blocks_accepts (d : Nat) (trace : List (Nat × FeEvent))
    (hmono : (trace.map Prod.fst).Pairwise (· ≤ ·)) :
    ∀ t ∈ accepted_times
      { armed := false, pause_armed := true, pause_deadline := d } trace,
      d ≤ t := by
  revert hmono
  induction trace with
  | nil =>
    intro hmono t ht
    simp [accepted_times] at ht
  | cons p rest ih =>
    intro hmono t ht
    obtain ⟨pt, pe⟩ := p
    simp only [List.map_cons, List.pairwise_cons] at hmono
    unfold accepted_times at ht
    cases pe with
    | accept_ready dtc dts e4 =>
      have hstep : tcp_accept_step
          { armed := false, pause_armed := true, pause_deadline := d } pt
          (FeEvent.accept_ready dtc dts e4) =
          ({ armed := false, pause_armed := true, pause_deadline := d },
            false) := by
        simp [tcp_accept_step]
      rw [hstep] at ht
      simp only [if_neg Bool.false_ne_true, List.nil_append] at ht
      exact ih hmono.2 t ht
    | pause_timer =>
      by_cases hd : d ≤ pt
      · have hstep : tcp_accept_step
            { armed := false, pause_armed := true, pause_deadline := d } pt
            FeEvent.pause_timer =
            ({ armed := true, pause_armed := false, pause_deadline := 0 },
              false) := by
          simp [tcp_accept_step, hd]
        rw [hstep] at ht
        simp only [if_neg Bool.false_ne_true, List.nil_append] at ht
        have hin := accepted_times_subset _ rest t ht
        exact le_trans hd (hmono.1 t hin)
      · have hstep : tcp_accept_step
            { armed := false, pause_armed := true, pause_deadline := d } pt
            FeEvent.pause_timer =
            ({ armed := false, pause_armed := true, pause_deadline := d },
              false) := by
          simp [tcp_accept_step, hd]
        rw [hstep] at ht
        simp only [if_neg Bool.false_ne_true, List.nil_append] at ht
        exact ih hmono.2 t ht

/-- C9: once descriptor usage reaches the table size minus the reserve of
five, accept_reserve fails with EMFILE without calling accept4; the
tcp_accept handler then unarms the accept event and arms the one-second
backoff timer; and from that paused state no connection is accepted on the
socket before the backoff deadline, that is, until the pause timer can
fire and rearm the event. -/
theorem tcp_accept_backoff :
    (∀ (dtc dts : Nat) (e4 : Option Nat), dtc + FD_RESERVE ≥ dts →
      accept_reserve dtc dts e4 = AcceptRes.failed EMFILE_ERR) ∧
    (∀ (s : TcpAcceptEv) (now dtc dts : Nat) (e4 : Option Nat),
      s.armed = true → dtc + FD_RESERVE ≥ dts →
      tcp_accept_step s now (FeEvent.accept_ready dtc dts e4) =
        ({ armed := false, pause_armed := true,
           pause_deadline := now + TCP_BACKOFF }, false)) ∧
    (∀ (d : Nat) (trace : List (Nat × FeEvent)),
      (trace.map Prod.fst).Pairwise (· ≤ ·) →
      ∀ t ∈ accepted_times
        { armed := false, pause_armed := true, pause_deadline := d } trace,
        d ≤ t) := by
  refine ⟨?_, ?_, backoff_blocks_accepts⟩
  · intro dtc dts e4 h
    simp [accept_reserve, h]
  · intro s now dtc dts e4 harm h
    simp [tcp_accept_step, harm, accept_reserve, h, EMFILE_ERR]

/-- Witness for tcp_accept_backoff: with usage 95 of 100 descriptors the
reserve check fails with EMFILE, an armed event at time 2 is unarmed with
the backoff deadline 3, and on a concrete trace from the paused state
every accept happens at or after the deadline. -/
theorem tcp_accept_backoff_witness :
    accept_reserve 95 100 none = AcceptRes.failed EMFILE_ERR ∧
    tcp_accept_step { armed := true, pause_armed := false, pause_deadline := 0 }
      2 (FeEvent.accept_ready 95 100 none) =
      ({ armed := false, pause_armed := true, pause_deadline := 3 }, false) ∧
    (∀ t ∈ accepted_times
      { armed := false, pause_armed := true, pause_deadline := 3 }
      [(2, FeEvent.accept_ready 0 100 none), (3, FeEvent.pause_timer),
        (4, FeEvent.accept_ready 0 100 none)],
      3 ≤ t) :=
  ⟨tcp_accept_backoff.1 95 100 none (by decide),
   tcp_accept_backoff.2.1 _ 2 95 100 none rfl (by decide),
   tcp_accept_backoff.2.2 3 _ (by decide)⟩
